import Mathlib

/-!
Verification of the fractal-explorer core (escape-time evaluation, viewport
and interaction state, normalization) as a shallow embedding of `main.py`.

Conventions of the embedding:
* Python floats are modelled by the real numbers `ℝ`, Python complex numbers
  by `ℂ`; the arithmetic performed by the program is exact over these carriers.
* The mutable `FractalExplorer` instance attributes become the fields of the
  structure `FractalState`; each event handler becomes a function
  `FractalState → ... → FractalState`.
* Matplotlib delivers pointer events whose plane coordinates are present
  exactly when the event occurred inside the plotting axes; this is the
  inductive `PointerEvent` (an `outside` event carries no coordinates).
* Purely graphical calls (`imshow`, `plt.draw`, label updates, `print`) have
  no bearing on the session state and are omitted; where a handler's
  observable behaviour includes triggering a recomputation or printing an
  error message, the handler returns those signals explicitly
  (`update_pixels`).
-/

noncomputable section

/-- The state of the explorer session: the instance attributes set in
`FractalExplorer.__init__` / `setup_plot` of `main.py`. -/
structure FractalState where
  max_iters : ℕ
  escape_val : ℝ
  x_range : ℝ × ℝ
  y_range : ℝ × ℝ
  pixels : ℕ
  color_style : String
  frac_type : String
  julia_c : ℂ
  click_start : Option (ℝ × ℝ)
  last_click_pos : Option (ℝ × ℝ)

/-- The initial session state from `FractalExplorer.__init__`: the
`last_click_pos` attribute does not exist yet (`hasattr` is false) and
`click_start` is set to `None` in `setup_plot`. -/
def initState : FractalState :=
  { max_iters := 100
    escape_val := 2.0
    x_range := (-2.5, 1.5)
    y_range := (-1.5, 1.5)
    pixels := 500
    color_style := "viridis"
    frac_type := "mandelbrot"
    julia_c := ⟨-0.7, 0.27⟩
    click_start := none
    last_click_pos := none }

/-- A pointer event as delivered by the plotting backend: coordinates are
available exactly when the event happened inside the plotting axes
(`event.inaxes == self.ax`); outside the axes, `event.xdata`/`event.ydata`
are missing. -/
inductive PointerEvent where
  | inside (xdata ydata : ℝ) (button : ℕ)
  | outside (button : ℕ)

/-- The loop of `mandelbrot_iteration`: repeatedly set `z = z**2 + c` and
return the number of completed non-escaping steps before the first iterate
whose modulus exceeds `escape_radius` (that count is the Python loop index
`i` at the early `return`), or the fuel if no iterate escapes. -/
def mandelbrotGo (c : ℂ) (escape_radius : ℝ) : ℂ → ℕ → ℕ
  | _, 0 => 0
  | z, n + 1 =>
      if escape_radius < Complex.abs (z ^ 2 + c) then 0
      else mandelbrotGo c escape_radius (z ^ 2 + c) n + 1

/-- `mandelbrot_iteration(self, c, max_iter, escape_radius=2.0)`: starts the
loop at `z = 0`. -/
def mandelbrot_iteration (c : ℂ) (max_iter : ℕ) (escape_radius : ℝ) : ℕ :=
  mandelbrotGo c escape_radius 0 max_iter

/-- The loop of `julia_iteration`, identical to the Mandelbrot loop but kept
separate because the source defines the two functions separately. -/
def juliaGo (c : ℂ) (escape_radius : ℝ) : ℂ → ℕ → ℕ
  | _, 0 => 0
  | z, n + 1 =>
      if escape_radius < Complex.abs (z ^ 2 + c) then 0
      else juliaGo c escape_radius (z ^ 2 + c) n + 1

/-- `julia_iteration(self, z, c, max_iter, escape_radius=2.0)`: the starting
point `z` is the sampled point and `c` is the Julia constant. -/
def julia_iteration (z c : ℂ) (max_iter : ℕ) (escape_radius : ℝ) : ℕ :=
  juliaGo c escape_radius z max_iter

/-- The orbit of the iteration `z ← z^2 + c` started at `z`; `jorbit z c i`
is the value held by the Python variable `z` after `i` executions of the
loop body. -/
def jorbit (z c : ℂ) : ℕ → ℂ
  | 0 => z
  | n + 1 => (jorbit z c n) ^ 2 + c

lemma jorbit_succ_shift (z c : ℂ) : ∀ n, jorbit z c (n + 1) = jorbit (z ^ 2 + c) c n := by
  intro n
  induction n with
  | zero => rfl
  | succ n ih =>
      show (jorbit z c (n + 1)) ^ 2 + c = jorbit (z ^ 2 + c) c (n + 1)
      rw [ih]
      rfl

lemma juliaGo_le (c : ℂ) (r : ℝ) : ∀ n z, juliaGo c r z n ≤ n := by
  intro n
  induction n with
  | zero => intro z; simp [juliaGo]
  | succ n ih =>
      intro z
      simp only [juliaGo]
      split
      · exact Nat.zero_le _
      · exact Nat.succ_le_succ (ih _)

lemma juliaGo_of_bounded (c : ℂ) (r : ℝ) :
    ∀ n z, (∀ i, i < n → Complex.abs (jorbit z c (i + 1)) ≤ r) →
      juliaGo c r z n = n := by
  intro n
  induction n with
  | zero => intro z _; rfl
  | succ n ih =>
      intro z h
      have h0 : Complex.abs (z ^ 2 + c) ≤ r := by
        have := h 0 (Nat.succ_pos n)
        simpa [jorbit] using this
      simp only [juliaGo, if_neg (not_lt.mpr h0)]
      have ih' : juliaGo c r (z ^ 2 + c) n = n := by
        apply ih
        intro i hi
        have := h (i + 1) (Nat.succ_lt_succ hi)
        rwa [jorbit_succ_shift] at this
      rw [ih']

lemma juliaGo_of_first_escape (c : ℂ) (r : ℝ) :
    ∀ i z n, i < n → r < Complex.abs (jorbit z c (i + 1)) →
      (∀ j, j < i → Complex.abs (jorbit z c (j + 1)) ≤ r) →
      juliaGo c r z n = i := by
  intro i
  induction i with
  | zero =>
      intro z n hn hesc _
      obtain ⟨m, rfl⟩ := Nat.exists_eq_succ_of_ne_zero (Nat.pos_iff_ne_zero.mp hn)
      have : r < Complex.abs (z ^ 2 + c) := by simpa [jorbit] using hesc
      simp only [juliaGo, if_pos this]
  | succ i ih =>
      intro z n hn hesc hj
      obtain ⟨m, rfl⟩ := Nat.exists_eq_succ_of_ne_zero
        (Nat.pos_iff_ne_zero.mp (Nat.lt_of_le_of_lt (Nat.zero_le _) hn))
      have h0 : Complex.abs (z ^ 2 + c) ≤ r := by
        have := hj 0 (Nat.succ_pos i)
        simpa [jorbit] using this
      simp only [juliaGo, if_neg (not_lt.mpr h0)]
      have : juliaGo c r (z ^ 2 + c) m = i := by
        apply ih
        · exact Nat.lt_of_succ_lt_succ hn
        · rw [← jorbit_succ_shift]; exact hesc
        · intro j hjlt
          rw [← jorbit_succ_shift]
          exact hj (j + 1) (Nat.succ_lt_succ hjlt)
      rw [this]

lemma mandelbrotGo_eq_juliaGo (c : ℂ) (r : ℝ) :
    ∀ n z, mandelbrotGo c r z n = juliaGo c r z n := by
  intro n
  induction n with
  | zero => intro z; rfl
  | succ n ih =>
      intro z
      simp only [mandelbrotGo, juliaGo]
      split
      · rfl
      · rw [ih]

lemma jorbit_zero_zero : ∀ n, jorbit 0 0 n = 0 := by
  intro n
  induction n with
  | zero => rfl
  | succ n ih => show (jorbit 0 0 n) ^ 2 + 0 = 0; rw [ih]; ring

/-- C5: for every sample point, Julia constant, iteration cap and positive
escape radius, both escape-time evaluators return at most `max_iter`; the
returned value is the 0-based index of the first loop iteration whose
iterate exceeds the escape radius, and `max_iter` when no iterate within
`max_iter` steps exceeds it; a Mandelbrot sample point whose modulus already
exceeds the escape radius yields 0, and the bounded orbit at `c = 0` yields
exactly `max_iter`. -/
theorem escape_time_evaluator_spec (z c : ℂ) (m : ℕ) (r : ℝ) (hr : 0 < r) :
    julia_iteration z c m r ≤ m ∧
    mandelbrot_iteration c m r ≤ m ∧
    (∀ i, i < m → r < Complex.abs (jorbit z c (i + 1)) →
      (∀ j, j < i → Complex.abs (jorbit z c (j + 1)) ≤ r) →
      julia_iteration z c m r = i) ∧
    ((∀ i, i < m → Complex.abs (jorbit z c (i + 1)) ≤ r) →
      julia_iteration z c m r = m) ∧
    (∀ i, i < m → r < Complex.abs (jorbit 0 c (i + 1)) →
      (∀ j, j < i → Complex.abs (jorbit 0 c (j + 1)) ≤ r) →
      mandelbrot_iteration c m r = i) ∧
    ((∀ i, i < m → Complex.abs (jorbit 0 c (i + 1)) ≤ r) →
      mandelbrot_iteration c m r = m) ∧
    (r < Complex.abs c → mandelbrot_iteration c m r = 0) ∧
    (c = 0 → mandelbrot_iteration c m r = m) := by
  refine ⟨juliaGo_le c r m z, ?_, ?_, ?_, ?_, ?_, ?_, ?_⟩
  · rw [mandelbrot_iteration, mandelbrotGo_eq_juliaGo]
    exact juliaGo_le c r m 0
  · intro i hi hesc hj
    exact juliaGo_of_first_escape c r i z m hi hesc hj
  · intro h
    exact juliaGo_of_bounded c r m z h
  · intro i hi hesc hj
    rw [mandelbrot_iteration, mandelbrotGo_eq_juliaGo]
    exact juliaGo_of_first_escape c r i 0 m hi hesc hj
  · intro h
    rw [mandelbrot_iteration, mandelbrotGo_eq_juliaGo]
    exact juliaGo_of_bounded c r m 0 h
  · intro hc
    rcases Nat.eq_zero_or_pos m with hm | hm
    · subst hm; rfl
    · rw [mandelbrot_iteration, mandelbrotGo_eq_juliaGo]
      apply juliaGo_of_first_escape c r 0 0 m hm
      · simpa [jorbit] using hc
      · intro j hj; exact absurd hj (Nat.not_lt_zero j)
  · intro hc
    subst hc
    rw [mandelbrot_iteration, mandelbrotGo_eq_juliaGo]
    apply juliaGo_of_bounded
    intro i _
    rw [jorbit_zero_zero]
    simpa using le_of_lt hr

/-- C5 witness: at escape radius 2 (positive) the bounded orbit at `c = 0`
returns the iteration cap 5 exactly. -/
theorem escape_time_evaluator_spec_witness :
    (0 : ℝ) < 2 ∧ mandelbrot_iteration 0 5 2 = 5 :=
  ⟨by norm_num,
    (escape_time_evaluator_spec 0 0 5 2 (by norm_num)).2.2.2.2.2.2.2 rfl⟩

/-- C10: the Mandelbrot evaluator is exactly the Julia evaluator started at
`z = 0`, for every point, iteration cap and escape radius. -/
theorem mandelbrot_refines_julia_at_zero (c : ℂ) (m : ℕ) (r : ℝ) :
    mandelbrot_iteration c m r = julia_iteration 0 c m r := by
  rw [mandelbrot_iteration, julia_iteration, mandelbrotGo_eq_juliaGo]

/-- `reset_view(self, event)`: sets the viewport to the fixed per-kind
default; the `event` argument is unused by the source. -/
def reset_view (s : FractalState) : FractalState :=
  if s.frac_type = "mandelbrot" then
    { s with x_range := (-2.5, 1.5), y_range := (-1.5, 1.5) }
  else
    { s with x_range := (-2.0, 2.0), y_range := (-2.0, 2.0) }

/-- `change_fractal_type(self, label)`: stores the label as the new
`frac_type`, then either resets the view (when the label is the lowercase
string `"mandelbrot"`) or, otherwise, sets the Julia constant from
`last_click_pos` when that attribute exists and the just-stored `frac_type`
equals the lowercase string `"julia"`. -/
def change_fractal_type (s : FractalState) (label : String) : FractalState :=
  let s1 := { s with frac_type := label }
  if label = "mandelbrot" then reset_view s1
  else
    match s1.last_click_pos with
    | some p => if s1.frac_type = "julia" then { s1 with julia_c := ⟨p.1, p.2⟩ } else s1
    | none => s1

/-- `on_click(self, event)`: inside the axes, records the click position as
both `click_start` and `last_click_pos`; a secondary-button press
(`event.button == 3`) in Julia mode additionally sets the Julia constant
immediately. Outside the axes nothing happens. -/
def on_click (s : FractalState) (e : PointerEvent) : FractalState :=
  match e with
  | .outside _ => s
  | .inside x y b =>
      let s1 := { s with click_start := some (x, y), last_click_pos := some (x, y) }
      if b = 3 ∧ s1.frac_type = "julia" then { s1 with julia_c := ⟨x, y⟩ } else s1

/-- `on_release(self, event)`: only acts when the release is inside the axes
and a `click_start` is recorded; for the primary button it either zooms to
the componentwise min/max rectangle of start and end (when either absolute
delta exceeds 0.01) or, in Mandelbrot mode, sets the Julia constant to the
start point; in either case `click_start` is cleared at the end of the
guarded block. -/
def on_release (s : FractalState) (e : PointerEvent) : FractalState :=
  match e with
  | .outside _ => s
  | .inside xe ye b =>
      match s.click_start with
      | none => s
      | some p =>
          let s1 :=
            if b = 1 then
              if 0.01 < |xe - p.1| ∨ 0.01 < |ye - p.2| then
                { s with x_range := (min p.1 xe, max p.1 xe),
                         y_range := (min p.2 ye, max p.2 ye) }
              else if s.frac_type = "mandelbrot" then
                { s with julia_c := ⟨p.1, p.2⟩ }
              else s
            else s
          { s1 with click_start := none }

/-- Reduction of `on_release` for an inside release while a drag is in
progress. -/
lemma on_release_inside (s : FractalState) (xs ys xe ye : ℝ) (b : ℕ)
    (h : s.click_start = some (xs, ys)) :
    on_release s (.inside xe ye b) =
      { (if b = 1 then
          if 0.01 < |xe - xs| ∨ 0.01 < |ye - ys| then
            { s with x_range := (min xs xe, max xs xe),
                     y_range := (min ys ye, max ys ye) }
          else if s.frac_type = "mandelbrot" then
            { s with julia_c := ⟨xs, ys⟩ }
          else s
        else s) with click_start := none } := by
  unfold on_release
  rw [h]

/-- `int(text)` as used by `update_pixels`: Python's `int` strips leading
and trailing whitespace, accepts an optional sign, and then requires a
nonempty run of decimal digits; anything else raises `ValueError` (here:
`none`). -/
def parse_digits (cs : List Char) : Option ℤ :=
  if cs ≠ [] ∧ cs.all (fun c => c.isDigit) then
    some (cs.foldl (fun a c => a * 10 + ((c.toNat : ℤ) - 48)) 0)
  else none

/-- The textual-to-integer conversion performed by `int(text)` in
`update_pixels`. -/
def parse_int (str : String) : Option ℤ :=
  match ((str.toList.dropWhile (fun c => c.isWhitespace)).reverse.dropWhile
      (fun c => c.isWhitespace)).reverse with
  | [] => none
  | c :: rest =>
      if c = '-' then (parse_digits rest).map (fun v => -v)
      else if c = '+' then parse_digits rest
      else parse_digits (c :: rest)

/-- `update_pixels(self, text)`: parses the textbox contents; a positive
integer updates `pixels` and re-renders (the Boolean component records that
`render_fractal`, i.e. a recomputation, was triggered), a non-positive
integer or an unparsable string leaves the state unchanged and prints the
corresponding error message (the `Option String` component). -/
def update_pixels (s : FractalState) (text : String) :
    FractalState × Bool × Option String :=
  match parse_int text with
  | some val =>
      if 0 < val then ({ s with pixels := val.toNat }, true, none)
      else (s, false, some "Pixel value must be > 0.")
  | none => (s, false, some "Invalid pixel input. Must be a number.")

/-- C1: the fractal-kind radio widget is built with the labels
`('Mandelbrot', 'Julia')`, so switching to Julia invokes
`change_fractal_type` with the capitalised label `"Julia"`. Starting from
the initial state after a click at (0.3, 0.2) (so a last-known click
position exists), switching to Julia leaves the Julia constant at its old
value `-0.7 + 0.27i` — the guard compares the just-stored `frac_type`
(`"Julia"`) with the lowercase `"julia"`, which never matches — even though
the viewport is indeed left unchanged; the same handler invoked with the
lowercase label `"julia"` (which the UI never produces) would set the
constant to the click position, showing the dead branch's intent. -/
theorem change_to_julia_ignores_last_click :
    (on_click initState (.inside 0.3 0.2 1)).last_click_pos = some (0.3, 0.2) ∧
    (change_fractal_type (on_click initState (.inside 0.3 0.2 1)) "Julia").frac_type
      = "Julia" ∧
    (change_fractal_type (on_click initState (.inside 0.3 0.2 1)) "Julia").julia_c
      = initState.julia_c ∧
    (change_fractal_type (on_click initState (.inside 0.3 0.2 1)) "Julia").x_range
      = initState.x_range ∧
    (change_fractal_type (on_click initState (.inside 0.3 0.2 1)) "Julia").y_range
      = initState.y_range ∧
    initState.julia_c ≠ (⟨0.3, 0.2⟩ : ℂ) ∧
    (change_fractal_type (on_click initState (.inside 0.3 0.2 1)) "julia").julia_c
      = (⟨0.3, 0.2⟩ : ℂ) := by
  refine ⟨?_, ?_, ?_, ?_, ?_, ?_, ?_⟩
  · rfl
  · rfl
  · simp [on_click, change_fractal_type, reset_view, initState]
  · simp [on_click, change_fractal_type, reset_view, initState]
  · simp [on_click, change_fractal_type, reset_view, initState]
  · intro h
    have := congrArg Complex.re h
    simp [initState] at this
    norm_num at this
  · simp [on_click, change_fractal_type, reset_view, initState]

/-- The session state used to exhibit the mode-switch reset failure: Julia
mode with a previously zoomed-in viewport. -/
def zoomedJuliaState : FractalState :=
  { initState with frac_type := "julia", x_range := (0, 1), y_range := (0, 1) }

/-- C2: the radio widget delivers the capitalised label `"Mandelbrot"`, and
`change_fractal_type` compares it against the lowercase `"mandelbrot"`, so
switching to Mandelbrot never resets the viewport: from a zoomed Julia
session the viewport stays at (0,1)×(0,1) instead of the Mandelbrot default
(-2.5,1.5)×(-1.5,1.5). The second half of the claim does hold:
`reset_view` in Julia mode yields exactly (-2,2)×(-2,2); but after the
switch the stored kind is `"Mandelbrot"`, so even an explicit reset then
yields the Julia default, not the Mandelbrot one. -/
theorem change_to_mandelbrot_does_not_reset :
    (change_fractal_type zoomedJuliaState "Mandelbrot").x_range = (0, 1) ∧
    (change_fractal_type zoomedJuliaState "Mandelbrot").y_range = (0, 1) ∧
    ((0 : ℝ), (1 : ℝ)) ≠ ((-2.5 : ℝ), (1.5 : ℝ)) ∧
    (reset_view zoomedJuliaState).x_range = (-2.0, 2.0) ∧
    (reset_view zoomedJuliaState).y_range = (-2.0, 2.0) ∧
    (reset_view (change_fractal_type zoomedJuliaState "Mandelbrot")).x_range
      = (-2.0, 2.0) := by
  refine ⟨?_, ?_, ?_, ?_, ?_, ?_⟩
  · simp [change_fractal_type, reset_view, zoomedJuliaState, initState]
  · simp [change_fractal_type, reset_view, zoomedJuliaState, initState]
  · intro h
    have := congrArg Prod.fst h
    norm_num at this
  · simp [reset_view, zoomedJuliaState, initState]
  · simp [reset_view, zoomedJuliaState, initState]
  · simp [change_fractal_type, reset_view, zoomedJuliaState, initState]

/-- The session state used for the outside-release claim: a drag is in
progress (the controller is in `Dragging`). -/
def draggingState : FractalState :=
  { initState with click_start := some (0.5, 0.5) }

/-- C8 counterexample: a primary-button `PointerUp` outside the plotting
surface while dragging leaves the whole state unchanged — in particular
`click_start` is NOT cleared, so the controller is still in `Dragging`
afterward, contradicting the claim that it is Idle. -/
theorem outside_release_keeps_dragging :
    on_release draggingState (.outside 1) = draggingState ∧
    (on_release draggingState (.outside 1)).click_start = some (0.5, 0.5) ∧
    (on_release draggingState (.outside 1)).click_start ≠ (none : Option (ℝ × ℝ)) := by
  refine ⟨rfl, rfl, ?_⟩
  intro h
  simp [on_release, draggingState] at h

/-- C8 amended: a `PointerUp` outside the plotting surface is a complete
no-op — the handler guard `event.inaxes == self.ax` fails before the missing
coordinates are ever read, so no zoom and no Julia-constant change occurs
and the function is total (no crash) — but the drag state is retained
unchanged rather than being returned to Idle. -/
theorem outside_release_noop (s : FractalState) (b : ℕ) :
    on_release s (.outside b) = s := rfl

/-- C3: a primary-button `PointerUp` inside the surface ending a drag from
`(xs, ys)` to `(xe, ye)` always clears `click_start` (returns to Idle); when
either absolute delta exceeds 0.01 the viewport becomes the componentwise
min/max rectangle of the two corners (in any mode, leaving the Julia
constant alone); otherwise, in Mandelbrot mode the Julia constant becomes
the start point with the viewport unchanged, and in Julia mode the only
change is the cleared `click_start`. -/
theorem on_release_primary_click_policy (s : FractalState) (xs ys xe ye : ℝ)
    (h : s.click_start = some (xs, ys)) :
    (on_release s (.inside xe ye 1)).click_start = none ∧
    ((0.01 < |xe - xs| ∨ 0.01 < |ye - ys|) →
      (on_release s (.inside xe ye 1)).x_range = (min xs xe, max xs xe) ∧
      (on_release s (.inside xe ye 1)).y_range = (min ys ye, max ys ye) ∧
      (on_release s (.inside xe ye 1)).julia_c = s.julia_c) ∧
    (|xe - xs| ≤ 0.01 → |ye - ys| ≤ 0.01 → s.frac_type = "mandelbrot" →
      (on_release s (.inside xe ye 1)).julia_c = (⟨xs, ys⟩ : ℂ) ∧
      (on_release s (.inside xe ye 1)).x_range = s.x_range ∧
      (on_release s (.inside xe ye 1)).y_range = s.y_range) ∧
    (|xe - xs| ≤ 0.01 → |ye - ys| ≤ 0.01 → s.frac_type = "julia" →
      on_release s (.inside xe ye 1) = { s with click_start := none }) := by
  rw [on_release_inside s xs ys xe ye 1 h]
  refine ⟨?_, ?_, ?_, ?_⟩
  · simp
  · intro hbig
    rw [if_pos rfl, if_pos hbig]
    exact ⟨rfl, rfl, rfl⟩
  · intro hx hy hm
    have hnot : ¬(0.01 < |xe - xs| ∨ 0.01 < |ye - ys|) := by
      push_neg
      exact ⟨hx, hy⟩
    rw [if_pos rfl, if_neg hnot, if_pos hm]
    exact ⟨rfl, rfl, rfl⟩
  · intro hx hy hj
    have hnot : ¬(0.01 < |xe - xs| ∨ 0.01 < |ye - ys|) := by
      push_neg
      exact ⟨hx, hy⟩
    have hm : s.frac_type ≠ "mandelbrot" := by rw [hj]; decide
    rw [if_pos rfl, if_neg hnot, if_neg hm]

/-- The dragging state used by the C3 witness: a drag started at (-2, -1). -/
def dragFromCorner : FractalState :=
  { initState with click_start := some (-2, -1) }

/-- C3 witness: releasing at (0, 1) after a drag from (-2, -1) zooms to the
rectangle (-2,0)×(-1,1) and returns the controller to Idle. -/
theorem on_release_primary_click_policy_witness :
    dragFromCorner.click_start = some (-2, -1) ∧
    (on_release dragFromCorner (.inside 0 1 1)).click_start = none ∧
    (on_release dragFromCorner (.inside 0 1 1)).x_range
      = (min (-2 : ℝ) 0, max (-2 : ℝ) 0) ∧
    (on_release dragFromCorner (.inside 0 1 1)).y_range
      = (min (-1 : ℝ) 1, max (-1 : ℝ) 1) ∧
    (on_release dragFromCorner (.inside 0 1 1)).julia_c = dragFromCorner.julia_c := by
  have H := on_release_primary_click_policy dragFromCorner (-2) (-1) 0 1 rfl
  have hzoom := H.2.1 (Or.inl (by rw [show (0 : ℝ) - (-2) = 2 by norm_num]; norm_num))
  exact ⟨rfl, H.1, hzoom.1, hzoom.2.1, hzoom.2.2⟩

/-- The dragging state used for the degenerate-zoom counterexample: a drag
started at the origin. -/
def dragFromOrigin : FractalState :=
  { initState with click_start := some (0, 0) }

/-- C4 counterexample: a purely vertical drag from (0,0) to (0,1) passes the
threshold test (dy = 1 > 0.01) even though dx = 0, so the zoom branch
installs the viewport x-range (0,0) — a zero-width viewport, violating the
claimed strict invariant `x_min < x_max`. -/
theorem zoom_installs_zero_width_viewport :
    (on_release dragFromOrigin (.inside 0 1 1)).x_range = (0, 0) ∧
    (on_release dragFromOrigin (.inside 0 1 1)).y_range = (0, 1) ∧
    ¬((on_release dragFromOrigin (.inside 0 1 1)).x_range.1
        < (on_release dragFromOrigin (.inside 0 1 1)).x_range.2) := by
  have h := on_release_inside dragFromOrigin 0 0 0 1 1 rfl
  have hbig : (0.01 : ℝ) < |(0 : ℝ) - 0| ∨ (0.01 : ℝ) < |(1 : ℝ) - 0| := by
    right
    norm_num
  rw [h, if_pos rfl, if_pos hbig]
  refine ⟨by norm_num, by norm_num, ?_⟩
  norm_num

/-- C4 amended: whenever the primary-button release actually replaces the
viewport (a zoom was installed), the new viewport satisfies
`x_min ≤ x_max`, `y_min ≤ y_max`, and its width or its height exceeds the
0.01 threshold — but because the threshold test is a disjunction over the
two axes, one of the two extents may be zero, so the strict positivity of
both extents does not hold and no `DegenerateZoom` rejection exists for
single-axis-degenerate rectangles (gestures are treated as clicks only when
both deltas are at most 0.01). -/
theorem installed_zoom_extents (s : FractalState) (xs ys xe ye : ℝ)
    (h : s.click_start = some (xs, ys))
    (hchange : (on_release s (.inside xe ye 1)).x_range ≠ s.x_range ∨
      (on_release s (.inside xe ye 1)).y_range ≠ s.y_range) :
    (on_release s (.inside xe ye 1)).x_range.1
      ≤ (on_release s (.inside xe ye 1)).x_range.2 ∧
    (on_release s (.inside xe ye 1)).y_range.1
      ≤ (on_release s (.inside xe ye 1)).y_range.2 ∧
    (0.01 < (on_release s (.inside xe ye 1)).x_range.2
        - (on_release s (.inside xe ye 1)).x_range.1 ∨
      0.01 < (on_release s (.inside xe ye 1)).y_range.2
        - (on_release s (.inside xe ye 1)).y_range.1) := by
  rw [on_release_inside s xs ys xe ye 1 h] at hchange ⊢
  rw [if_pos rfl] at hchange ⊢
  by_cases hbig : 0.01 < |xe - xs| ∨ 0.01 < |ye - ys|
  · rw [if_pos hbig]
    refine ⟨min_le_max, min_le_max, ?_⟩
    rcases hbig with hx | hy
    · left
      rw [max_sub_min_eq_abs xs xe]
      exact hx
    · right
      rw [max_sub_min_eq_abs ys ye]
      exact hy
  · rw [if_neg hbig] at hchange
    exfalso
    by_cases hm : s.frac_type = "mandelbrot"
    · rw [if_pos hm] at hchange
      rcases hchange with hc | hc <;> exact hc rfl
    · rw [if_neg hm] at hchange
      rcases hchange with hc | hc <;> exact hc rfl

/-- C4 witness: the vertical drag from (0,0) to (0,1) changes the viewport,
and the installed viewport has ordered extents with its height above the
threshold. -/
theorem installed_zoom_extents_witness :
    dragFromOrigin.click_start = some (0, 0) ∧
    ((on_release dragFromOrigin (.inside 0 1 1)).x_range ≠ dragFromOrigin.x_range ∨
      (on_release dragFromOrigin (.inside 0 1 1)).y_range ≠ dragFromOrigin.y_range) ∧
    ((on_release dragFromOrigin (.inside 0 1 1)).x_range.1
        ≤ (on_release dragFromOrigin (.inside 0 1 1)).x_range.2 ∧
      (on_release dragFromOrigin (.inside 0 1 1)).y_range.1
        ≤ (on_release dragFromOrigin (.inside 0 1 1)).y_range.2 ∧
      (0.01 < (on_release dragFromOrigin (.inside 0 1 1)).x_range.2
          - (on_release dragFromOrigin (.inside 0 1 1)).x_range.1 ∨
        0.01 < (on_release dragFromOrigin (.inside 0 1 1)).y_range.2
          - (on_release dragFromOrigin (.inside 0 1 1)).y_range.1)) := by
  have hchange : (on_release dragFromOrigin (.inside 0 1 1)).x_range
      ≠ dragFromOrigin.x_range ∨
      (on_release dragFromOrigin (.inside 0 1 1)).y_range ≠ dragFromOrigin.y_range := by
    left
    have h := on_release_inside dragFromOrigin 0 0 0 1 1 rfl
    have hbig : (0.01 : ℝ) < |(0 : ℝ) - 0| ∨ (0.01 : ℝ) < |(1 : ℝ) - 0| := by
      right
      norm_num
    rw [h, if_pos rfl, if_pos hbig]
    intro hcon
    have := congrArg Prod.fst hcon
    simp [dragFromOrigin, initState] at this
    norm_num at this
  exact ⟨rfl, hchange,
    installed_zoom_extents dragFromOrigin 0 0 0 1 rfl hchange⟩

/-- C9: every textual resolution input that fails to parse as an integer, or
parses to a non-positive value, leaves the session state unchanged, triggers
no recomputation, and reports the corresponding error message (the session
catches the exception, so it does not crash); every positive-integer input
updates `pixels` to that value and triggers a recomputation with no error.
The concrete rejected examples of the claim parse as stated. -/
theorem update_pixels_validation (s : FractalState) (text : String) :
    (parse_int text = none →
      update_pixels s text = (s, false, some "Invalid pixel input. Must be a number.")) ∧
    (∀ v : ℤ, parse_int text = some v → v ≤ 0 →
      update_pixels s text = (s, false, some "Pixel value must be > 0.")) ∧
    (∀ v : ℤ, parse_int text = some v → 0 < v →
      update_pixels s text = ({ s with pixels := v.toNat }, true, none)) ∧
    parse_int "-5" = some (-5) ∧
    parse_int "abc" = none ∧
    parse_int "0" = some 0 := by
  refine ⟨?_, ?_, ?_, by decide, by decide, by decide⟩
  · intro h
    simp only [update_pixels, h]
  · intro v hv hle
    simp only [update_pixels, hv]
    rw [if_neg (not_lt.mpr hle)]
  · intro v hv hpos
    simp only [update_pixels, hv]
    rw [if_pos hpos]

/-- C9 witness: the non-numeric input "abc" is rejected with the error
message and leaves the initial state untouched, and the input "6" updates
the resolution to 6 and triggers a recomputation. -/
theorem update_pixels_validation_witness :
    parse_int "abc" = none ∧
    update_pixels initState "abc"
      = (initState, false, some "Invalid pixel input. Must be a number.") ∧
    parse_int "6" = some 6 ∧
    update_pixels initState "6" = ({ initState with pixels := (6 : ℤ).toNat }, true, none) :=
  ⟨by decide,
    (update_pixels_validation initState "abc").1 (by decide),
    by decide,
    (update_pixels_validation initState "6").2.2.1 6 (by decide) (by decide)⟩

/-- The per-cell normalization of `render_fractal` (line
`norm_iters = np.log(iters + 1) / np.log(self.max_iters + 1)`): `np.log` is
the natural logarithm, applied elementwise, and the integer grid entries are
promoted to floats. -/
def normalize_value (v : ℕ) (max_iters : ℕ) : ℝ :=
  Real.log ((v : ℝ) + 1) / Real.log ((max_iters : ℝ) + 1)

/-- The elementwise normalization of the whole iteration grid performed by
`render_fractal`. -/
def render_normalize (grid : List (List ℕ)) (max_iters : ℕ) : List (List ℝ) :=
  grid.map (fun row => row.map (fun v => normalize_value v max_iters))

/-- C6: normalization maps each cell value `v` to exactly
`ln(v+1)/ln(max_iters+1)`; for positive `max_iters` every value in
`[0, max_iters]` is mapped into `[0, 1]`, the map is monotone non-decreasing
in the iteration count, and consequently every cell of the normalized grid
of an iteration grid with entries in `[0, max_iters]` lies in `[0, 1]`. -/
theorem normalize_log_bounds_monotone (m : ℕ) (hm : 0 < m) :
    (∀ v : ℕ, normalize_value v m = Real.log ((v : ℝ) + 1) / Real.log ((m : ℝ) + 1)) ∧
    (∀ v : ℕ, v ≤ m → 0 ≤ normalize_value v m ∧ normalize_value v m ≤ 1) ∧
    (∀ v w : ℕ, v ≤ w → normalize_value v m ≤ normalize_value w m) ∧
    (∀ grid : List (List ℕ), (∀ row ∈ grid, ∀ v ∈ row, v ≤ m) →
      ∀ row ∈ render_normalize grid m, ∀ x ∈ row, 0 ≤ x ∧ x ≤ 1) := by
  have hm1 : (1 : ℝ) < (m : ℝ) + 1 := by
    have : (0 : ℝ) < (m : ℝ) := by exact_mod_cast hm
    linarith
  have hL : 0 < Real.log ((m : ℝ) + 1) := Real.log_pos hm1
  have hnum : ∀ v : ℕ, 0 ≤ Real.log ((v : ℝ) + 1) := by
    intro v
    apply Real.log_nonneg
    have : (0 : ℝ) ≤ (v : ℝ) := Nat.cast_nonneg v
    linarith
  have hmono : ∀ v w : ℕ, v ≤ w →
      Real.log ((v : ℝ) + 1) ≤ Real.log ((w : ℝ) + 1) := by
    intro v w hvw
    apply Real.log_le_log (by positivity)
    have : (v : ℝ) ≤ (w : ℝ) := by exact_mod_cast hvw
    linarith
  have hbounds : ∀ v : ℕ, v ≤ m → 0 ≤ normalize_value v m ∧ normalize_value v m ≤ 1 := by
    intro v hv
    constructor
    · exact div_nonneg (hnum v) (le_of_lt hL)
    · rw [normalize_value, div_le_one hL]
      exact hmono v m hv
  refine ⟨fun v => rfl, hbounds, ?_, ?_⟩
  · intro v w hvw
    exact (div_le_div_iff_of_pos_right hL).mpr (hmono v w hvw)
  · intro grid hgrid row hrow x hx
    rw [render_normalize, List.mem_map] at hrow
    obtain ⟨row0, hrow0, rfl⟩ := hrow
    rw [List.mem_map] at hx
    obtain ⟨v, hv, rfl⟩ := hx
    exact hbounds v (hgrid row0 hrow0 v hv)

/-- C6 witness: with iteration cap 2, the cell value 1 is mapped into
`[0, 1]`. -/
theorem normalize_log_bounds_monotone_witness :
    0 < 2 ∧ 1 ≤ 2 ∧ (0 ≤ normalize_value 1 2 ∧ normalize_value 1 2 ≤ 1) :=
  ⟨by decide, by decide,
    (normalize_log_bounds_monotone 2 (by decide)).2.1 1 (by decide)⟩

/-- `np.linspace(a, b, n)`: `n` evenly spaced samples; for `n ≥ 2` the
sample at index `i` is `a + i*(b-a)/(n-1)`, so both endpoints are included;
`np.linspace(a, b, 1)` is the single sample `[a]` (which the formula also
yields here, since division by the real number zero is zero in this
embedding). -/
def linspace (a b : ℝ) (n : ℕ) : List ℝ :=
  (List.range n).map (fun i : ℕ => a + (i : ℝ) * (b - a) / ((n - 1 : ℕ) : ℝ))

/-- The evaluator `compute_fractal` applies at the lattice point
`(xv, yv)`: the Mandelbrot evaluator at the point itself, or the Julia
evaluator started at the point with the session's Julia constant. -/
def evalPoint (s : FractalState) (xv yv : ℝ) : ℕ :=
  if s.frac_type = "mandelbrot" then
    mandelbrot_iteration ⟨xv, yv⟩ s.max_iters s.escape_val
  else
    julia_iteration ⟨xv, yv⟩ s.julia_c s.max_iters s.escape_val

/-- `compute_fractal(self)`: builds the `meshgrid` of
`np.linspace(x_range, pixels)` × `np.linspace(y_range, pixels)` (so
`Z[i, j] = x[j] + 1j * y[i]`) and fills the iteration grid row-major over
`(y, x)` with the evaluator selected by `frac_type`. -/
def compute_fractal (s : FractalState) : List (List ℕ) :=
  if s.frac_type = "mandelbrot" then
    (linspace s.y_range.1 s.y_range.2 s.pixels).map (fun yv =>
      (linspace s.x_range.1 s.x_range.2 s.pixels).map (fun xv =>
        mandelbrot_iteration ⟨xv, yv⟩ s.max_iters s.escape_val))
  else
    (linspace s.y_range.1 s.y_range.2 s.pixels).map (fun yv =>
      (linspace s.x_range.1 s.x_range.2 s.pixels).map (fun xv =>
        julia_iteration ⟨xv, yv⟩ s.julia_c s.max_iters s.escape_val))

lemma compute_fractal_eq (s : FractalState) :
    compute_fractal s = (linspace s.y_range.1 s.y_range.2 s.pixels).map (fun yv =>
      (linspace s.x_range.1 s.x_range.2 s.pixels).map (fun xv => evalPoint s xv yv)) := by
  rw [compute_fractal]
  by_cases h : s.frac_type = "mandelbrot"
  · rw [if_pos h]
    simp only [evalPoint, if_pos h]
  · rw [if_neg h]
    simp only [evalPoint, if_neg h]

lemma linspace_length (a b : ℝ) (n : ℕ) : (linspace a b n).length = n := by
  rw [linspace, List.length_map, List.length_range]

lemma linspace_getD (a b : ℝ) (n i : ℕ) (hi : i < n) :
    (linspace a b n).getD i 0 = a + (i : ℝ) * (b - a) / ((n - 1 : ℕ) : ℝ) := by
  rw [linspace, List.getD_eq_getElem _ _ (by simpa using hi),
    List.getElem_map, List.getElem_range]

lemma linspace_first (a b : ℝ) (n : ℕ) (hn : 0 < n) :
    (linspace a b n).getD 0 0 = a := by
  rw [linspace_getD a b n 0 hn]
  simp

lemma linspace_last (a b : ℝ) (n : ℕ) (hn : 2 ≤ n) :
    (linspace a b n).getD (n - 1) 0 = b := by
  rw [linspace_getD a b n (n - 1) (by omega)]
  have hcast : ((n - 1 : ℕ) : ℝ) = (n : ℝ) - 1 := by
    have h1 : (1 : ℕ) ≤ n := by omega
    push_cast [Nat.cast_sub h1]
    ring
  have hne : ((n : ℝ) - 1) ≠ 0 := by
    have h2 : (2 : ℝ) ≤ (n : ℝ) := by exact_mod_cast hn
    intro hcon
    linarith
  rw [hcast, mul_div_cancel_left₀ _ hne]
  ring

lemma compute_fractal_length (s : FractalState) :
    (compute_fractal s).length = s.pixels := by
  rw [compute_fractal_eq, List.length_map, linspace_length]

lemma compute_fractal_row (s : FractalState) (i : ℕ) (hi : i < s.pixels) :
    (compute_fractal s).getD i [] =
      (linspace s.x_range.1 s.x_range.2 s.pixels).map
        (fun xv => evalPoint s xv ((linspace s.y_range.1 s.y_range.2 s.pixels).getD i 0)) := by
  rw [compute_fractal_eq,
    List.getD_eq_getElem _ _ (by rw [List.length_map, linspace_length]; exact hi),
    List.getElem_map,
    List.getD_eq_getElem _ _ (by rw [linspace_length]; exact hi)]

/-- C7 amended: for every viewport and every resolution of at least 2, the
computed grid has exactly `pixels` rows of exactly `pixels` columns, the
sampling lattice on each axis is the arithmetic progression
`a + i*(b-a)/(pixels-1)` (evenly spaced, inclusive of both endpoints), row 0
is evaluated at `y_min` and the last row at `y_max`. (At resolution 1 —
excluded here — `np.linspace` returns only the start point, so the single
row samples `y_min` and `y_max` is not sampled at all.) -/
theorem lattice_grid_spec (s : FractalState) (h2 : 2 ≤ s.pixels) :
    (compute_fractal s).length = s.pixels ∧
    (∀ row ∈ compute_fractal s, row.length = s.pixels) ∧
    (∀ a b : ℝ, ∀ i : ℕ, i < s.pixels →
      (linspace a b s.pixels).getD i 0
        = a + (i : ℝ) * (b - a) / ((s.pixels - 1 : ℕ) : ℝ)) ∧
    (∀ a b : ℝ, (linspace a b s.pixels).getD 0 0 = a ∧
      (linspace a b s.pixels).getD (s.pixels - 1) 0 = b) ∧
    (compute_fractal s).getD 0 []
      = (linspace s.x_range.1 s.x_range.2 s.pixels).map
          (fun xv => evalPoint s xv s.y_range.1) ∧
    (compute_fractal s).getD (s.pixels - 1) []
      = (linspace s.x_range.1 s.x_range.2 s.pixels).map
          (fun xv => evalPoint s xv s.y_range.2) := by
  refine ⟨compute_fractal_length s, ?_, ?_, ?_, ?_, ?_⟩
  · intro row hrow
    rw [compute_fractal_eq] at hrow
    rw [List.mem_map] at hrow
    obtain ⟨yv, _, rfl⟩ := hrow
    rw [List.length_map, linspace_length]
  · intro a b i hi
    exact linspace_getD a b s.pixels i hi
  · intro a b
    exact ⟨linspace_first a b s.pixels (by omega), linspace_last a b s.pixels h2⟩
  · rw [compute_fractal_row s 0 (by omega),
      linspace_first s.y_range.1 s.y_range.2 s.pixels (by omega)]
  · rw [compute_fractal_row s (s.pixels - 1) (by omega),
      linspace_last s.y_range.1 s.y_range.2 s.pixels h2]

/-- The session state used by the C7 witness: resolution 2. -/
def twoPixelState : FractalState := { initState with pixels := 2 }

/-- C7 witness: at resolution 2 the grid has 2 rows and the y-lattice of the
default viewport starts at -1.5 and ends at 1.5. -/
theorem lattice_grid_spec_witness :
    2 ≤ twoPixelState.pixels ∧
    (compute_fractal twoPixelState).length = twoPixelState.pixels ∧
    ((linspace twoPixelState.y_range.1 twoPixelState.y_range.2 twoPixelState.pixels).getD 0 0
        = twoPixelState.y_range.1 ∧
      (linspace twoPixelState.y_range.1 twoPixelState.y_range.2 twoPixelState.pixels).getD
          (twoPixelState.pixels - 1) 0
        = twoPixelState.y_range.2) :=
  ⟨Nat.le.refl,
    (lattice_grid_spec twoPixelState Nat.le.refl).1,
    (lattice_grid_spec twoPixelState Nat.le.refl).2.2.2.1
      twoPixelState.y_range.1 twoPixelState.y_range.2⟩

/-- The session state used by the C7 counterexample: resolution 1 with the
unit-square viewport. -/
def resOneState : FractalState :=
  { initState with pixels := 1, x_range := (0, 1), y_range := (0, 1) }

/-- C7 counterexample: resolution 1 is a positive resolution, yet
`np.linspace(0, 1, 1)` is `[0]`, so the grid's single — hence last — row is
evaluated at the imaginary part 0 = `y_min`, not at `y_max` = 1, and the
lattice does not include the upper endpoints at all. -/
theorem resolution_one_last_row_samples_y_min :
    0 < resOneState.pixels ∧
    resOneState.y_range.2 = 1 ∧
    linspace resOneState.y_range.1 resOneState.y_range.2 resOneState.pixels = [0] ∧
    compute_fractal resOneState = [[evalPoint resOneState 0 0]] ∧
    (0 : ℝ) ≠ 1 := by
  have hy : linspace resOneState.y_range.1 resOneState.y_range.2 resOneState.pixels
      = [0] := by
    show linspace 0 1 1 = [0]
    rw [linspace, show List.range 1 = [0] from rfl, List.map_singleton]
    norm_num
  have hx : linspace resOneState.x_range.1 resOneState.x_range.2 resOneState.pixels
      = [0] := by
    show linspace 0 1 1 = [0]
    rw [linspace, show List.range 1 = [0] from rfl, List.map_singleton]
    norm_num
  refine ⟨Nat.one_pos, rfl, hy, ?_, by norm_num⟩
  rw [compute_fractal_eq, hy, hx, List.map_singleton, List.map_singleton]
